import Mathlib

/-!
Verification development for the capture_open photo-library manager.

The definitions below are a shallow embedding of the program's core:
* the metadata cache (`database.ts`): the `images` and `projects` tables as
  lists of rows, with `upsertImage`, `upsertImagesBatch`, `upsertProject`,
  `getImagesByProject` translated statement by statement from the SQL;
* the derivative store (`sidecar.ts`): `generateThumbnail`,
  `generateStandardPreview`, `generateFullSizePreview` over an abstract
  file-system state, returning the produced path together with the list of
  mutating file-system operations they perform;
* the derivative server (`thumbnail-server.ts`): the `/full` and `/standard`
  route handlers as pure functions of the registered managers and the
  file-existence oracle;
* the reconciliation diff and project store (main process): the
  `start-watching` background diff and `Store.addProject`.

JavaScript numbers (sizes, timestamps in ms, ratings, dimensions) are
modelled as `Nat`; SQL `TEXT` as `String`; fallible filesystem calls as
`Except`.
-/

/-- A row of the `images` table (`database.ts`, `CREATE TABLE images`). -/
structure ImageRecord where
  id : String
  project_id : String
  file_path : String
  file_name : String
  file_size : Nat
  width : Nat
  height : Nat
  created_at : Nat
  modified_at : Nat
  rating : Nat
  deriving DecidableEq

/-- The `DO UPDATE SET` arm of `upsertImage`: gated by
`WHERE excluded.modified_at > modified_at`; when it fires it overwrites
`file_size`, `width`, `height`, `modified_at`, and (by the `CASE`, whose
condition coincides with the `WHERE`) `rating`. -/
def upsertImageRow (s r : ImageRecord) : ImageRecord :=
  if s.modified_at < r.modified_at then
    { s with file_size := r.file_size, width := r.width, height := r.height,
             modified_at := r.modified_at, rating := r.rating }
  else s

/-- `DatabaseManager.upsertImage`: `INSERT ... ON CONFLICT(id) DO UPDATE`. -/
def upsertImage (db : List ImageRecord) (r : ImageRecord) : List ImageRecord :=
  if db.any (fun s => s.id == r.id) then
    db.map (fun s => if s.id == r.id then upsertImageRow s r else s)
  else db ++ [r]

/-- The `DO UPDATE SET` arm of the statement prepared in `upsertImagesBatch`:
same gate, but its `SET` list has no `rating` assignment. -/
def upsertBatchRow (s r : ImageRecord) : ImageRecord :=
  if s.modified_at < r.modified_at then
    { s with file_size := r.file_size, width := r.width, height := r.height,
             modified_at := r.modified_at }
  else s

/-- One `stmt.run` of the loop inside `upsertImagesBatch`. -/
def upsertBatchStep (db : List ImageRecord) (r : ImageRecord) : List ImageRecord :=
  if db.any (fun s => s.id == r.id) then
    db.map (fun s => if s.id == r.id then upsertBatchRow s r else s)
  else db ++ [r]

/-- `DatabaseManager.upsertImagesBatch`: the transaction runs the prepared
statement once per record, in list order. -/
def upsertImagesBatch (db : List ImageRecord) (rs : List ImageRecord) : List ImageRecord :=
  rs.foldl upsertBatchStep db

/-- C1: For every image record already stored, calling `upsertImage` with a
record whose `modified_at` is older than or equal to the stored row's
`modified_at` leaves the whole table (in particular the stored rating and
every other field of the row) unchanged; and the update is applied exactly
when the incoming `modified_at` is strictly newer. -/
theorem upsertImage_stale_preserves_row
    (db : List ImageRecord) (r s : ImageRecord)
    (hnd : (db.map (fun t => t.id)).Nodup)
    (hs : s ∈ db) (hid : s.id = r.id) :
    (r.modified_at ≤ s.modified_at → upsertImage db r = db) ∧
    (s.modified_at < r.modified_at →
      upsertImage db r =
        db.map (fun t => if t.id == r.id then upsertImageRow t r else t)) := by
  have hany : db.any (fun t => t.id == r.id) = true := by
    rw [List.any_eq_true]
    exact ⟨s, hs, by simp [hid]⟩
  constructor
  · intro hle
    unfold upsertImage
    rw [hany]
    simp only [if_true]
    have hmap : ∀ t ∈ db,
        (if t.id == r.id then upsertImageRow t r else t) = t := by
      intro t ht
      by_cases hc : t.id = r.id
      · have hts : t = s := by
          exact List.inj_on_of_nodup_map hnd ht hs (hc.trans hid.symm)
        subst hts
        simp only [hc, beq_self_eq_true, if_true]
        unfold upsertImageRow
        rw [if_neg (Nat.not_lt.mpr hle)]
      · simp [hc]
    rw [List.map_congr_left hmap, List.map_id']
  · intro _
    unfold upsertImage
    rw [hany]
    simp

/-- Witness for C1: a stored row with rating 5 and `modified_at = 10` is left
untouched by an upsert carrying `modified_at = 10` and rating 0. -/
theorem upsertImage_stale_preserves_row_witness :
    upsertImage [⟨"a", "p", "fp", "fn", 1, 2, 3, 4, 10, 5⟩]
        ⟨"a", "p", "fp", "fn", 9, 9, 9, 9, 10, 0⟩
      = [⟨"a", "p", "fp", "fn", 1, 2, 3, 4, 10, 5⟩] :=
  (upsertImage_stale_preserves_row
      [⟨"a", "p", "fp", "fn", 1, 2, 3, 4, 10, 5⟩]
      ⟨"a", "p", "fp", "fn", 9, 9, 9, 9, 10, 0⟩
      ⟨"a", "p", "fp", "fn", 1, 2, 3, 4, 10, 5⟩
      (by decide) (by decide) (by decide)).1 (by decide)

/-- Forget the `rating` column of a row (used to compare the batch and
single-record upserts on every other column). -/
def clearRating (s : ImageRecord) : ImageRecord := { s with rating := 0 }

/-- A stored row `db0C2` holding a user rating 5 at `modified_at = 1`. -/
def db0C2 : List ImageRecord := [⟨"a", "p", "a", "a", 1, 1, 1, 0, 1, 5⟩]

/-- A rescan record for the same id with a strictly newer `modified_at = 2`
and rating 0. -/
def recC2 : ImageRecord := ⟨"a", "p", "a", "a", 2, 2, 2, 0, 2, 0⟩

/-- Counterexample to C2: on a conflicting record with a strictly newer
`modified_at`, `upsertImage` overwrites `rating` (its `SET` list has the
`rating = CASE ...` assignment) while the statement prepared inside
`upsertImagesBatch` does not (its `SET` list stops at `modified_at`), so the
batch does not leave the database in the state sequential `upsertImage`
produces. -/
theorem upsertImagesBatch_ne_sequential_upsert :
    upsertImagesBatch db0C2 [recC2] ≠ List.foldl upsertImage db0C2 [recC2] := by
  decide

lemma clearRating_batchRow (s r : ImageRecord) :
    clearRating (upsertBatchRow s r) = upsertBatchRow (clearRating s) r := by
  by_cases hm : s.modified_at < r.modified_at
  · simp [upsertBatchRow, clearRating, hm]
  · simp [upsertBatchRow, clearRating, hm]

lemma clearRating_imageRow (s r : ImageRecord) :
    clearRating (upsertImageRow s r) = upsertBatchRow (clearRating s) r := by
  by_cases hm : s.modified_at < r.modified_at
  · simp [upsertImageRow, upsertBatchRow, clearRating, hm]
  · simp [upsertImageRow, upsertBatchRow, clearRating, hm]

lemma map_clearRating_map_id (db : List ImageRecord) :
    (db.map clearRating).map (fun s => s.id) = db.map (fun s => s.id) := by
  rw [List.map_map]
  rfl

lemma any_id_eq (db : List ImageRecord) (i : String) :
    db.any (fun s => s.id == i) = (db.map (fun s => s.id)).any (fun x => x == i) := by
  induction db with
  | nil => rfl
  | cons a l ih => simp [List.any_cons, ih]

/-- One batch statement and one `upsertImage` act identically on databases
that agree off the `rating` column. -/
lemma upsertStep_sim (r : ImageRecord) {db₁ db₂ : List ImageRecord}
    (h : db₁.map clearRating = db₂.map clearRating) :
    (upsertBatchStep db₁ r).map clearRating = (upsertImage db₂ r).map clearRating := by
  have hids : db₁.map (fun s => s.id) = db₂.map (fun s => s.id) := by
    rw [← map_clearRating_map_id db₁, h, map_clearRating_map_id db₂]
  have hany : db₁.any (fun s => s.id == r.id) = db₂.any (fun s => s.id == r.id) := by
    rw [any_id_eq db₁ r.id, hids, ← any_id_eq db₂ r.id]
  unfold upsertBatchStep upsertImage
  cases hb : db₂.any (fun s => s.id == r.id) with
  | false =>
    rw [hany, hb]
    simp only [Bool.false_eq_true, if_false, List.map_append]
    rw [h]
  | true =>
    rw [hany, hb]
    simp only [if_true, List.map_map]
    have p₁ : ∀ s : ImageRecord,
        clearRating (if s.id == r.id then upsertBatchRow s r else s)
          = (fun u : ImageRecord =>
              if u.id == r.id then upsertBatchRow u r else u) (clearRating s) := by
      intro s
      have hcid : (clearRating s).id = s.id := rfl
      by_cases hc : (s.id == r.id) = true
      · rw [if_pos hc]
        show clearRating (upsertBatchRow s r)
            = if (clearRating s).id == r.id then upsertBatchRow (clearRating s) r
              else clearRating s
        rw [hcid, if_pos hc]
        exact clearRating_batchRow s r
      · rw [if_neg hc]
        show clearRating s
            = if (clearRating s).id == r.id then upsertBatchRow (clearRating s) r
              else clearRating s
        rw [hcid, if_neg hc]
    have p₂ : ∀ s : ImageRecord,
        clearRating (if s.id == r.id then upsertImageRow s r else s)
          = (fun u : ImageRecord =>
              if u.id == r.id then upsertBatchRow u r else u) (clearRating s) := by
      intro s
      have hcid : (clearRating s).id = s.id := rfl
      by_cases hc : (s.id == r.id) = true
      · rw [if_pos hc]
        show clearRating (upsertImageRow s r)
            = if (clearRating s).id == r.id then upsertBatchRow (clearRating s) r
              else clearRating s
        rw [hcid, if_pos hc]
        exact clearRating_imageRow s r
      · rw [if_neg hc]
        show clearRating s
            = if (clearRating s).id == r.id then upsertBatchRow (clearRating s) r
              else clearRating s
        rw [hcid, if_neg hc]
    calc db₁.map (clearRating ∘ fun s => if s.id == r.id then upsertBatchRow s r else s)
        = db₁.map ((fun u : ImageRecord =>
            if u.id == r.id then upsertBatchRow u r else u) ∘ clearRating) :=
          List.map_congr_left (fun s _ => p₁ s)
      _ = (db₁.map clearRating).map (fun u : ImageRecord =>
            if u.id == r.id then upsertBatchRow u r else u) := by rw [List.map_map]
      _ = (db₂.map clearRating).map (fun u : ImageRecord =>
            if u.id == r.id then upsertBatchRow u r else u) := by rw [h]
      _ = db₂.map ((fun u : ImageRecord =>
            if u.id == r.id then upsertBatchRow u r else u) ∘ clearRating) := by
          rw [List.map_map]
      _ = db₂.map (clearRating ∘ fun s => if s.id == r.id then upsertImageRow s r else s) :=
          (List.map_congr_left (fun s _ => p₂ s)).symm

lemma upsertBatch_sim (rs : List ImageRecord) :
    ∀ {db₁ db₂ : List ImageRecord}, db₁.map clearRating = db₂.map clearRating →
    (List.foldl upsertBatchStep db₁ rs).map clearRating
      = (List.foldl upsertImage db₂ rs).map clearRating := by
  induction rs with
  | nil => intro db₁ db₂ h; simpa using h
  | cons r rs ih =>
    intro db₁ db₂ h
    simp only [List.foldl_cons]
    exact ih (upsertStep_sim r h)

/-- Amended C2: `upsertImagesBatch` leaves the database in the same state as
applying `upsertImage` to each record in order **except on the `rating`
column**: the two results agree after forgetting `rating`, and the batch
statement never overwrites the ratings of already-stored rows (its
`ON CONFLICT` update has no `rating` assignment), whereas `upsertImage`
overwrites `rating` when the incoming `modified_at` is strictly newer. -/
theorem upsertImagesBatch_eq_sequential_up_to_rating
    (db : List ImageRecord) (rs : List ImageRecord) :
    (upsertImagesBatch db rs).map clearRating
      = (List.foldl upsertImage db rs).map clearRating ∧
    ∀ (db' : List ImageRecord) (r : ImageRecord),
      db'.any (fun s => s.id == r.id) = true →
      (upsertBatchStep db' r).map (fun s => s.rating) = db'.map (fun s => s.rating) := by
  constructor
  · exact upsertBatch_sim rs rfl
  · intro db' r hc
    unfold upsertBatchStep
    rw [hc]
    simp only [if_true, List.map_map]
    apply List.map_congr_left
    intro s _
    show ((fun s => s.rating) ∘ fun s => if s.id == r.id then upsertBatchRow s r else s) s
        = s.rating
    by_cases hid : s.id = r.id
    · simp only [Function.comp_apply, hid, beq_self_eq_true, if_true]
      unfold upsertBatchRow
      by_cases hm : s.modified_at < r.modified_at
      · simp [hm]
      · simp [hm]
    · simp [Function.comp_apply, hid]

/-- Witness for the amended C2 at the counterexample input: the batch
statement leaves the stored rating column untouched. -/
theorem upsertImagesBatch_eq_sequential_up_to_rating_witness :
    (upsertBatchStep db0C2 recC2).map (fun s => s.rating)
      = db0C2.map (fun s => s.rating) :=
  (upsertImagesBatch_eq_sequential_up_to_rating db0C2 []).2 db0C2 recC2 (by decide)

/-- A row of the `projects` table (`database.ts`, `CREATE TABLE projects`);
`cache_size` has SQL default 0. -/
structure ProjectRow where
  id : String
  name : String
  path : String
  created_at : Nat
  last_opened : Nat
  cache_size : Nat
  deriving DecidableEq

/-- `DatabaseManager.upsertProject`: `INSERT OR REPLACE INTO projects (id,
name, path, created_at, last_opened) VALUES (?, ?, ?, COALESCE((SELECT
created_at FROM projects WHERE id = ?), ?), ?)` with `now` bound to both
time parameters.  The `COALESCE` subquery reads the table before the
replace; `OR REPLACE` deletes any row conflicting on the `id` primary key
or on the `path UNIQUE` constraint and inserts a fresh row, whose omitted
`cache_size` column takes its default 0. -/
def upsertProject (db : List ProjectRow) (id name path : String) (now : Nat) :
    List ProjectRow :=
  let created : Nat :=
    match db.find? (fun s => s.id == id) with
    | some s => s.created_at
    | none => now
  db.filter (fun s => !(s.id == id) && !(s.path == path)) ++
    [⟨id, name, path, created, now, 0⟩]

lemma upsertProject_find (db : List ProjectRow) (id name path : String) (now : Nat) :
    (upsertProject db id name path now).find? (fun s => s.id == id)
      = some ⟨id, name, path,
          (match db.find? (fun s => s.id == id) with
           | some s => s.created_at
           | none => now), now, 0⟩ := by
  unfold upsertProject
  rw [List.find?_append]
  have hnone : (db.filter (fun s => !(s.id == id) && !(s.path == path))).find?
      (fun s => s.id == id) = none := by
    rw [List.find?_eq_none]
    intro x hx
    rcases List.mem_filter.mp hx with ⟨-, hcond⟩
    rcases (Bool.and_eq_true _ _).mp hcond with ⟨h1, -⟩
    rw [Bool.not_eq_true'] at h1
    simp [h1]
  rw [hnone, Option.none_or]
  simp [List.find?]

lemma upsertProject_calls (id name path : String) (ts : List Nat) :
    ∀ (db : List ProjectRow) (c lo : Nat),
    db.find? (fun s => s.id == id) = some ⟨id, name, path, c, lo, 0⟩ →
    (ts.foldl (fun d u => upsertProject d id name path u) db).find?
        (fun s => s.id == id)
      = some ⟨id, name, path, c, ts.foldl (fun _ u => u) lo, 0⟩ := by
  induction ts with
  | nil => intro db c lo h; simpa using h
  | cons u us ih =>
    intro db c lo h
    simp only [List.foldl_cons]
    apply ih (upsertProject db id name path u) c u
    rw [upsertProject_find, h]

/-- C9: starting from a table with no row for `id`, a sequence of
`upsertProject` calls at times `t, ts...` is idempotent on identity and
`created_at`: the stored `created_at` stays the first call's time `t`,
while `last_opened` is refreshed to the time of the latest call
(`ts.foldl (fun _ u => u) t` is the last element of `t :: ts`). -/
theorem upsertProject_preserves_created_at
    (db : List ProjectRow) (id name path : String) (t : Nat) (ts : List Nat)
    (habs : db.find? (fun s => s.id == id) = none) :
    ((t :: ts).foldl (fun d u => upsertProject d id name path u) db).find?
        (fun s => s.id == id)
      = some ⟨id, name, path, t, ts.foldl (fun _ u => u) t, 0⟩ := by
  simp only [List.foldl_cons]
  apply upsertProject_calls id name path ts
  rw [upsertProject_find, habs]

/-- Witness for C9: three calls at times 5, 7, 9 leave `created_at = 5` and
`last_opened = 9`. -/
theorem upsertProject_preserves_created_at_witness :
    (([5, 7, 9] : List Nat).foldl
        (fun d u => upsertProject d "p1" "pics" "/pics" u) []).find?
        (fun s => s.id == "p1")
      = some ⟨"p1", "pics", "/pics", 5, 9, 0⟩ :=
  upsertProject_preserves_created_at [] "p1" "pics" "/pics" 5 [7, 9] (by decide)

/-- C10: when a row for `id` is already present, `upsertProject` replaces the
entire row: only `created_at` is carried over from the stored row `s`;
`name`, `path` and `last_opened` come from the call, and `cache_size` is
reset to its column default 0, whatever value `s.cache_size` held. -/
theorem upsertProject_resets_cache_size
    (db : List ProjectRow) (id name path : String) (now : Nat) (s : ProjectRow)
    (hfind : db.find? (fun x => x.id == id) = some s) :
    (upsertProject db id name path now).find? (fun x => x.id == id)
      = some ⟨id, name, path, s.created_at, now, 0⟩ := by
  rw [upsertProject_find, hfind]

/-- Witness for C10: a stored row with `cache_size = 7` comes back with
`cache_size = 0` after `upsertProject`. -/
theorem upsertProject_resets_cache_size_witness :
    (upsertProject [⟨"p1", "old", "/pics", 3, 4, 7⟩] "p1" "pics" "/pics" 9).find?
        (fun x => x.id == "p1")
      = some ⟨"p1", "pics", "/pics", 3, 9, 0⟩ :=
  upsertProject_resets_cache_size [⟨"p1", "old", "/pics", 3, 4, 7⟩]
    "p1" "pics" "/pics" 9 ⟨"p1", "old", "/pics", 3, 4, 7⟩ (by decide)

/-- File-system metadata for one path: `fs.stat` fields (`size`, `mtime` as
`mtimeMs`, `birthtime` as `birthtimeMs`) together with the pixel dimensions
`sharp(path).metadata()` reports. -/
structure FileMeta where
  size : Nat
  mtime : Nat
  birthtime : Nat
  width : Nat
  height : Nat
  deriving DecidableEq

/-- The file system as a partial map from paths to metadata; `none` means the
path does not exist (`fs.pathExists` false, `fs.stat`/`sharp` throw). -/
def FS : Type := String → Option FileMeta

/-- `path.join` as used throughout the main process and `sidecar.ts`. -/
def pathJoin (a b : String) : String := a ++ "/" ++ b

/-- `SidecarManager`: owns the `.capture-open` sidecar tree of one watched
folder (`sidecar.ts` constructor). -/
structure SidecarManager where
  folderPath : String
  deriving DecidableEq

def SidecarManager.sidecarRoot (m : SidecarManager) : String :=
  pathJoin m.folderPath ".capture-open"

def SidecarManager.thumbnailsDir (m : SidecarManager) : String :=
  pathJoin m.sidecarRoot "thumbnails"

def SidecarManager.previewsDir (m : SidecarManager) : String :=
  pathJoin m.sidecarRoot "previews"

def SidecarManager.getThumbnailPath (m : SidecarManager) (imageName : String) : String :=
  pathJoin m.thumbnailsDir (imageName ++ ".thumb.webp")

def SidecarManager.getPreviewPath (m : SidecarManager) (imageName : String) : String :=
  pathJoin m.previewsDir (imageName ++ ".preview.jpg")

def SidecarManager.getStandardPreviewPath (m : SidecarManager) (imageName : String) : String :=
  pathJoin m.previewsDir (imageName ++ ".standard.jpg")

def SidecarManager.getFullSizePreviewPath (m : SidecarManager) (imageName : String) : String :=
  pathJoin m.previewsDir (imageName ++ ".full.jpg")

/-- A mutating file-system operation performed by derivative generation.
`toFile p q` is `sharp(...).toFile(p)` with encoder quality `q`; `rename`
is included so that the write-then-rename discipline the spec describes is
expressible — the generators never emit it. -/
inductive FSOp where
  | toFile (path : String) (quality : Nat)
  | rename (src : String) (dst : String)
  deriving DecidableEq

/-- `SidecarManager.generateThumbnail`: skip when the thumbnail exists and its
mtime is at least the source's; otherwise encode a 256x256 webp (quality 75)
straight to the thumbnail path.  A missing source makes `fs.stat`/`sharp`
throw, modelled as `Except.error`. -/
def generateThumbnail (m : SidecarManager) (fs : FS) (imagePath imageName : String) :
    Except String (String × List FSOp) :=
  let thumbPath := m.getThumbnailPath imageName
  match fs imagePath with
  | none => Except.error "ENOENT"
  | some src =>
    match fs thumbPath with
    | some tst =>
      if src.mtime ≤ tst.mtime then Except.ok (thumbPath, [])
      else Except.ok (thumbPath, [FSOp.toFile thumbPath 75])
    | none => Except.ok (thumbPath, [FSOp.toFile thumbPath 75])

/-- `SidecarManager.generateStandardPreview`: same staleness skip; otherwise
resize to fit 1600px and encode a jpeg whose quality is 92 when the source's
longer edge is at most 1600px and 80 otherwise, straight to the preview
path. -/
def generateStandardPreview (m : SidecarManager) (fs : FS) (imagePath imageName : String) :
    Except String (String × List FSOp) :=
  let previewPath := m.getStandardPreviewPath imageName
  match fs imagePath with
  | none => Except.error "ENOENT"
  | some src =>
    let maxDimension := max src.width src.height
    let quality := if maxDimension ≤ 1600 then 92 else 80
    match fs previewPath with
    | some pst =>
      if src.mtime ≤ pst.mtime then Except.ok (previewPath, [])
      else Except.ok (previewPath, [FSOp.toFile previewPath quality])
    | none => Except.ok (previewPath, [FSOp.toFile previewPath quality])

/-- `SidecarManager.generateFullSizePreview`: when the source's longer edge is
at most 1600px, return `none` (the standard preview is to be used) and do
nothing; otherwise behave like the other tiers, encoding a quality-92 jpeg
straight to the full-size preview path. -/
def generateFullSizePreview (m : SidecarManager) (fs : FS) (imagePath imageName : String) :
    Except String (Option String × List FSOp) :=
  match fs imagePath with
  | none => Except.error "ENOENT"
  | some src =>
    let maxDimension := max src.width src.height
    if maxDimension ≤ 1600 then Except.ok (none, [])
    else
      let previewPath := m.getFullSizePreviewPath imageName
      match fs previewPath with
      | some pst =>
        if src.mtime ≤ pst.mtime then Except.ok (some previewPath, [])
        else Except.ok (some previewPath, [FSOp.toFile previewPath 92])
      | none => Except.ok (some previewPath, [FSOp.toFile previewPath 92])

/-- Apply a trace of mutating operations to a file-system state; a write at
time `now` installs a file whose mtime is `now`. -/
def applyOps (fs : FS) (ops : List FSOp) (now : Nat) : FS :=
  ops.foldl
    (fun f op =>
      match op with
      | FSOp.toFile p _ => fun x => if x = p then some ⟨0, now, now, 0, 0⟩ else f x
      | FSOp.rename a b => fun x => if x = b then f a else if x = a then none else f x)
    fs

/-- C5: for a readable source, `generateFullSizePreview` returns the absent
signal (`none`) and performs no write exactly when the source's longer edge
is at most 1600px; when the longer edge exceeds 1600px it returns the
full-size preview path and afterwards a file exists at that path. -/
theorem generateFullSizePreview_iff_large_source
    (m : SidecarManager) (fs : FS) (imagePath imageName : String)
    (src : FileMeta) (now : Nat) (hsrc : fs imagePath = some src) :
    (max src.width src.height ≤ 1600 →
      generateFullSizePreview m fs imagePath imageName = Except.ok (none, [])) ∧
    (1600 < max src.width src.height →
      ∃ ops, generateFullSizePreview m fs imagePath imageName
          = Except.ok (some (m.getFullSizePreviewPath imageName), ops)
        ∧ (applyOps fs ops now (m.getFullSizePreviewPath imageName)).isSome = true) := by
  constructor
  · intro h
    simp [generateFullSizePreview, hsrc, h]
  · intro h
    have hn : ¬ max src.width src.height ≤ 1600 := Nat.not_le.mpr h
    cases hp : fs (m.getFullSizePreviewPath imageName) with
    | none =>
      refine ⟨[FSOp.toFile (m.getFullSizePreviewPath imageName) 92], ?_, ?_⟩
      · simp [generateFullSizePreview, hsrc, hn, hp]
      · simp [applyOps]
    | some pst =>
      by_cases hm : src.mtime ≤ pst.mtime
      · refine ⟨[], ?_, ?_⟩
        · simp [generateFullSizePreview, hsrc, hn, hp, hm]
        · simp [applyOps, hp]
      · refine ⟨[FSOp.toFile (m.getFullSizePreviewPath imageName) 92], ?_, ?_⟩
        · simp [generateFullSizePreview, hsrc, hn, hp, hm]
        · simp [applyOps]

/-- Witness for C5: an 800x600 source yields `(none, [])`; a 3000x2000 source
yields the full-size preview path with a write. -/
theorem generateFullSizePreview_iff_large_source_witness :
    generateFullSizePreview ⟨"d"⟩
        (fun p => if p = "d/a.jpg" then some ⟨10, 5, 5, 800, 600⟩ else none)
        "d/a.jpg" "a.jpg"
      = Except.ok (none, []) :=
  (generateFullSizePreview_iff_large_source ⟨"d"⟩
      (fun p => if p = "d/a.jpg" then some ⟨10, 5, 5, 800, 600⟩ else none)
      "d/a.jpg" "a.jpg" ⟨10, 5, 5, 800, 600⟩ 0 (by decide)).1 (by decide)

/-- C6: if the source is readable and the derivative file already exists with
mtime at least the source's mtime, each generator returns the existing
derivative path (for the full tier, given a source that actually produces
that tier) and performs no mutating file-system operation, so the
derivative file is untouched. -/
theorem regenerate_fresh_derivative_noop
    (m : SidecarManager) (fs : FS) (imagePath imageName : String)
    (src : FileMeta) (hsrc : fs imagePath = some src) :
    (∀ tst, fs (m.getThumbnailPath imageName) = some tst → src.mtime ≤ tst.mtime →
      generateThumbnail m fs imagePath imageName
        = Except.ok (m.getThumbnailPath imageName, [])) ∧
    (∀ pst, fs (m.getStandardPreviewPath imageName) = some pst → src.mtime ≤ pst.mtime →
      generateStandardPreview m fs imagePath imageName
        = Except.ok (m.getStandardPreviewPath imageName, [])) ∧
    (∀ pst, fs (m.getFullSizePreviewPath imageName) = some pst → src.mtime ≤ pst.mtime →
      1600 < max src.width src.height →
      generateFullSizePreview m fs imagePath imageName
        = Except.ok (some (m.getFullSizePreviewPath imageName), [])) := by
  refine ⟨?_, ?_, ?_⟩
  · intro tst ht hle
    simp [generateThumbnail, hsrc, ht, hle]
  · intro pst hp hle
    simp [generateStandardPreview, hsrc, hp, hle]
  · intro pst hp hle hdim
    simp [generateFullSizePreview, hsrc, hp, hle, Nat.not_le.mpr hdim]

/-- A concrete file system for the C6 witness: a 3000x2000 source at mtime 5
with all three derivatives present at mtime 6. -/
def fsC6 : FS := fun p =>
  if p = "d/a.jpg" then some ⟨10, 5, 5, 3000, 2000⟩
  else if p = "d/.capture-open/thumbnails/a.jpg.thumb.webp" then some ⟨1, 6, 6, 0, 0⟩
  else if p = "d/.capture-open/previews/a.jpg.standard.jpg" then some ⟨1, 6, 6, 0, 0⟩
  else if p = "d/.capture-open/previews/a.jpg.full.jpg" then some ⟨1, 6, 6, 0, 0⟩
  else none

/-- Witness for C6: on `fsC6` all three second calls return the existing
derivative paths with an empty write trace. -/
theorem regenerate_fresh_derivative_noop_witness :
    generateThumbnail ⟨"d"⟩ fsC6 "d/a.jpg" "a.jpg"
      = Except.ok ("d/.capture-open/thumbnails/a.jpg.thumb.webp", []) ∧
    generateStandardPreview ⟨"d"⟩ fsC6 "d/a.jpg" "a.jpg"
      = Except.ok ("d/.capture-open/previews/a.jpg.standard.jpg", []) ∧
    generateFullSizePreview ⟨"d"⟩ fsC6 "d/a.jpg" "a.jpg"
      = Except.ok (some "d/.capture-open/previews/a.jpg.full.jpg", []) :=
  ⟨(regenerate_fresh_derivative_noop ⟨"d"⟩ fsC6 "d/a.jpg" "a.jpg"
      ⟨10, 5, 5, 3000, 2000⟩ (by decide)).1 ⟨1, 6, 6, 0, 0⟩ (by decide) (by decide),
   (regenerate_fresh_derivative_noop ⟨"d"⟩ fsC6 "d/a.jpg" "a.jpg"
      ⟨10, 5, 5, 3000, 2000⟩ (by decide)).2.1 ⟨1, 6, 6, 0, 0⟩ (by decide) (by decide),
   (regenerate_fresh_derivative_noop ⟨"d"⟩ fsC6 "d/a.jpg" "a.jpg"
      ⟨10, 5, 5, 3000, 2000⟩ (by decide)).2.2 ⟨1, 6, 6, 0, 0⟩ (by decide) (by decide)
      (by decide)⟩

/-- The write discipline claimed by the spec for derivative generation: no
`toFile` in the trace targets the final derivative path (writes would go to
a temporary path and reach the final path only through a rename). -/
def noDirectFinalWrite (ops : List FSOp) (finalPath : String) : Prop :=
  ∀ q, FSOp.toFile finalPath q ∉ ops

/-- The file system for the C7 counterexample: a readable source and no
thumbnail yet. -/
def fsC7 : FS := fun p => if p = "d/a.jpg" then some ⟨10, 5, 5, 2000, 1000⟩ else none

/-- Counterexample to C7: generating a missing thumbnail performs a single
`sharp(...).toFile` aimed directly at the final thumbnail path — there is no
temporary file and no rename — so the claimed temp-file-plus-rename
atomicity does not hold. -/
theorem generateThumbnail_writes_final_path_directly :
    generateThumbnail ⟨"d"⟩ fsC7 "d/a.jpg" "a.jpg"
      = Except.ok ("d/.capture-open/thumbnails/a.jpg.thumb.webp",
          [FSOp.toFile "d/.capture-open/thumbnails/a.jpg.thumb.webp" 75]) ∧
    ¬ noDirectFinalWrite [FSOp.toFile "d/.capture-open/thumbnails/a.jpg.thumb.webp" 75]
        "d/.capture-open/thumbnails/a.jpg.thumb.webp" :=
  ⟨rfl, fun h => h 75 (List.mem_singleton.mpr rfl)⟩

/-- Amended C7: every derivative generation writes directly to the final
derivative path: whenever a generator succeeds, its whole mutating trace is
either empty (fresh derivative) or the single `toFile` aimed at the final
path with the tier's encoder quality; no temporary file and no rename are
ever used, so a mid-write failure can leave a partial file at the final
path. -/
theorem derivative_writes_direct_no_rename
    (m : SidecarManager) (fs : FS) (imagePath imageName : String)
    (src : FileMeta) (hsrc : fs imagePath = some src) :
    (∀ p ops, generateThumbnail m fs imagePath imageName = Except.ok (p, ops) →
      p = m.getThumbnailPath imageName ∧
      (ops = [] ∨ ops = [FSOp.toFile (m.getThumbnailPath imageName) 75])) ∧
    (∀ p ops, generateStandardPreview m fs imagePath imageName = Except.ok (p, ops) →
      p = m.getStandardPreviewPath imageName ∧
      (ops = [] ∨ ops = [FSOp.toFile (m.getStandardPreviewPath imageName) 92] ∨
        ops = [FSOp.toFile (m.getStandardPreviewPath imageName) 80])) ∧
    (∀ r ops, generateFullSizePreview m fs imagePath imageName = Except.ok (r, ops) →
      (r = none ∧ ops = []) ∨
      (r = some (m.getFullSizePreviewPath imageName) ∧
        (ops = [] ∨ ops = [FSOp.toFile (m.getFullSizePreviewPath imageName) 92]))) := by
  refine ⟨?_, ?_, ?_⟩
  · intro p ops hok
    simp only [generateThumbnail, hsrc] at hok
    split at hok
    · split at hok
      · injection hok with h
        injection h with h1 h2
        exact ⟨h1.symm, Or.inl h2.symm⟩
      · injection hok with h
        injection h with h1 h2
        exact ⟨h1.symm, Or.inr h2.symm⟩
    · injection hok with h
      injection h with h1 h2
      exact ⟨h1.symm, Or.inr h2.symm⟩
  · intro p ops hok
    simp only [generateStandardPreview, hsrc] at hok
    by_cases hdim : max src.width src.height ≤ 1600
    · simp only [if_pos hdim] at hok
      split at hok
      · split at hok
        · injection hok with h
          injection h with h1 h2
          exact ⟨h1.symm, Or.inl h2.symm⟩
        · injection hok with h
          injection h with h1 h2
          exact ⟨h1.symm, Or.inr (Or.inl h2.symm)⟩
      · injection hok with h
        injection h with h1 h2
        exact ⟨h1.symm, Or.inr (Or.inl h2.symm)⟩
    · simp only [if_neg hdim] at hok
      split at hok
      · split at hok
        · injection hok with h
          injection h with h1 h2
          exact ⟨h1.symm, Or.inl h2.symm⟩
        · injection hok with h
          injection h with h1 h2
          exact ⟨h1.symm, Or.inr (Or.inr h2.symm)⟩
      · injection hok with h
        injection h with h1 h2
        exact ⟨h1.symm, Or.inr (Or.inr h2.symm)⟩
  · intro r ops hok
    simp only [generateFullSizePreview, hsrc] at hok
    by_cases hdim : max src.width src.height ≤ 1600
    · simp only [if_pos hdim] at hok
      injection hok with h
      injection h with h1 h2
      exact Or.inl ⟨h1.symm, h2.symm⟩
    · simp only [if_neg hdim] at hok
      split at hok
      · split at hok
        · injection hok with h
          injection h with h1 h2
          exact Or.inr ⟨h1.symm, Or.inl h2.symm⟩
        · injection hok with h
          injection h with h1 h2
          exact Or.inr ⟨h1.symm, Or.inr h2.symm⟩
      · injection hok with h
        injection h with h1 h2
        exact Or.inr ⟨h1.symm, Or.inr h2.symm⟩

/-- Witness for the amended C7 at the counterexample input: the trace is
exactly the single direct write to the final thumbnail path. -/
theorem derivative_writes_direct_no_rename_witness :
    "d/.capture-open/thumbnails/a.jpg.thumb.webp"
        = SidecarManager.getThumbnailPath ⟨"d"⟩ "a.jpg" ∧
    ([FSOp.toFile "d/.capture-open/thumbnails/a.jpg.thumb.webp" 75] = [] ∨
      [FSOp.toFile "d/.capture-open/thumbnails/a.jpg.thumb.webp" 75]
        = [FSOp.toFile (SidecarManager.getThumbnailPath ⟨"d"⟩ "a.jpg") 75]) :=
  (derivative_writes_direct_no_rename ⟨"d"⟩ fsC7 "d/a.jpg" "a.jpg"
      ⟨10, 5, 5, 2000, 1000⟩ (by decide)).1
    "d/.capture-open/thumbnails/a.jpg.thumb.webp"
    [FSOp.toFile "d/.capture-open/thumbnails/a.jpg.thumb.webp" 75] rfl

/-- A response of the derivative server: a 404 with its message, or the file
streamed from a path. -/
inductive HttpResponse where
  | notFound (msg : String)
  | serveFile (path : String)
  deriving DecidableEq

/-- The `GET /full/:projectId/:filename` handler of `thumbnail-server.ts`:
look up the registered `SidecarManager`; serve the full-size preview when it
exists, fall back to the standard preview when that exists, else 404.
`managers` models the `sidecarManagers` map and `pathExists` the
`fs.pathExists` oracle. -/
def fullHandler (managers : String → Option SidecarManager)
    (pathExists : String → Bool) (projectId filename : String) : HttpResponse :=
  match managers projectId with
  | none => HttpResponse.notFound "Project not found"
  | some m =>
    let fullPath := m.getFullSizePreviewPath filename
    if pathExists fullPath then HttpResponse.serveFile fullPath
    else
      let standardPath := m.getStandardPreviewPath filename
      if pathExists standardPath then HttpResponse.serveFile standardPath
      else HttpResponse.notFound "Full preview not found"

/-- The `GET /standard/:projectId/:filename` handler. -/
def standardHandler (managers : String → Option SidecarManager)
    (pathExists : String → Bool) (projectId filename : String) : HttpResponse :=
  match managers projectId with
  | none => HttpResponse.notFound "Project not found"
  | some m =>
    let standardPath := m.getStandardPreviewPath filename
    if pathExists standardPath then HttpResponse.serveFile standardPath
    else HttpResponse.notFound "Standard preview not found"

/-- C4: the `full` tier serves the full-size preview file when it exists;
when it is absent it serves the standard preview file when that exists, and
responds not-found only when both are absent.  In the fallback case the
`full` response is the same file — hence the same bytes — as the `standard`
response, which is the expected path for sources whose longer edge is at
most 1600px, since those never get a full-size derivative. -/
theorem fullHandler_resolution_order
    (managers : String → Option SidecarManager)
    (pathExists : String → Bool) (projectId filename : String) :
    (managers projectId = none →
      fullHandler managers pathExists projectId filename
        = HttpResponse.notFound "Project not found") ∧
    ∀ m, managers projectId = some m →
      (pathExists (m.getFullSizePreviewPath filename) = true →
        fullHandler managers pathExists projectId filename
          = HttpResponse.serveFile (m.getFullSizePreviewPath filename)) ∧
      (pathExists (m.getFullSizePreviewPath filename) = false →
        pathExists (m.getStandardPreviewPath filename) = true →
        fullHandler managers pathExists projectId filename
          = HttpResponse.serveFile (m.getStandardPreviewPath filename) ∧
        fullHandler managers pathExists projectId filename
          = standardHandler managers pathExists projectId filename) ∧
      (pathExists (m.getFullSizePreviewPath filename) = false →
        pathExists (m.getStandardPreviewPath filename) = false →
        fullHandler managers pathExists projectId filename
          = HttpResponse.notFound "Full preview not found") := by
  constructor
  · intro hnone
    simp [fullHandler, hnone]
  · intro m hm
    refine ⟨?_, ?_, ?_⟩
    · intro hfull
      simp [fullHandler, hm, hfull]
    · intro hfull hstd
      constructor
      · simp [fullHandler, hm, hfull, hstd]
      · simp [fullHandler, standardHandler, hm, hfull, hstd]
    · intro hfull hstd
      simp [fullHandler, hm, hfull, hstd]

/-- The manager registry for the C4 witness: one project `"d_pics"`. -/
def managersC4 : String → Option SidecarManager :=
  fun pid => if pid = "d_pics" then some ⟨"d/pics"⟩ else none

/-- The existence oracle for the C4 witness: only the standard preview of
`a.jpg` exists (the full-size derivative is absent, as for a small source). -/
def pathExistsC4 : String → Bool :=
  fun p => p = "d/pics/.capture-open/previews/a.jpg.standard.jpg"

/-- Witness for C4: with the full-size preview absent and the standard
preview present, the `full` request streams the standard preview file and
coincides with the `standard` request. -/
theorem fullHandler_resolution_order_witness :
    fullHandler managersC4 pathExistsC4 "d_pics" "a.jpg"
      = HttpResponse.serveFile "d/pics/.capture-open/previews/a.jpg.standard.jpg" ∧
    fullHandler managersC4 pathExistsC4 "d_pics" "a.jpg"
      = standardHandler managersC4 pathExistsC4 "d_pics" "a.jpg" :=
  ((fullHandler_resolution_order managersC4 pathExistsC4 "d_pics" "a.jpg").2
      ⟨"d/pics"⟩ (by decide)).2.1 (by decide) (by decide)

/-- The `start-watching` handler's project id:
`folderPath.replace(/[\\/:]/g, '_')` — every backslash, slash and colon
becomes an underscore; nothing but the folder path enters the id. -/
def deriveProjectId (folderPath : String) : String :=
  folderPath.map (fun c => if c = '\\' || c = '/' || c = ':' then '_' else c)

/-- The project id the watch pipeline uses during a run started at time
`now`; the handler computes it from `folderPath` alone, so `now` is unused. -/
def startWatchingProjectId (_now : Nat) (folderPath : String) : String :=
  deriveProjectId folderPath

/-- A project entry of the renderer-facing project list (`store.ts`). -/
structure Project where
  id : String
  name : String
  path : String
  createdAt : Nat
  deriving DecidableEq

/-- `path.basename`: the last path component. -/
def basename (p : String) : String := (p.splitOn "/").getLastD p

/-- `Store.addProject`: builds a fresh entry whose id is
`` `proj-${Date.now()}` `` (with `Date.now()` passed in as `now`), appends it
and returns it. -/
def addProject (projects : List Project) (projectPath : String) (now : Nat) :
    Project × List Project :=
  let name := basename projectPath
  let id := "proj-" ++ toString now
  let newProject : Project := ⟨id, name, projectPath, now⟩
  (newProject, projects ++ [newProject])

/-- Counterexample to C8: `Store.addProject` derives the id from the clock,
not from the path — adding the same folder `"d"` at two different times
yields two different project ids, so the project id is not a function of
the path alone. -/
theorem addProject_ids_differ_across_runs :
    (addProject [] "d" 1).1.id ≠ (addProject [] "d" 2).1.id := by
  decide

/-- Amended C8: the id the watch pipeline derives (used for database rows,
sidecar-manager registration and server routes) is a deterministic function
of the folder path alone — identical across runs started at any two times —
whereas the project-list store's `addProject` stamps `proj-` followed by the
current time, so its id varies with the call time, not the path. -/
theorem watch_projectId_deterministic_store_id_timestamped :
    (∀ (p : String) (t₁ t₂ : Nat),
      startWatchingProjectId t₁ p = startWatchingProjectId t₂ p) ∧
    (∀ (projects : List Project) (p : String) (now : Nat),
      (addProject projects p now).1.id = "proj-" ++ toString now) := by
  constructor
  · intro p t₁ t₂
    rfl
  · intro projects p now
    rfl

/-- The image-extension filter of the background diff and the watcher:
`/\.(jpg|jpeg|png|webp|avif)$/i` — the name, lowercased character by
character, ends in one of the five dotted extensions. -/
def isImageFile (f : String) : Bool :=
  [".jpg", ".jpeg", ".png", ".webp", ".avif"].any
    (fun ext => ext.data.isSuffixOf (f.data.map Char.toLower))

/-- The environment the background diff reads: the folder listing
(`fs.readdir`), per-path `fs.stat`/`sharp` metadata — `none` when those
calls throw, e.g. on a corrupt image or a file deleted mid-scan — and the
sidecar metadata rating (`sidecarManager.loadMetadata(fileName)?.rating`). -/
structure ScanEnv where
  files : List String
  stat : String → Option FileMeta
  sidecarRating : String → Option Nat

/-- The `ImageRecord` that `processImageWithSidecar` upserts for one file
whose stat/decode succeeded with metadata `st`: id and paths are the
absolute source path, sizes and times from `fs.stat`, dimensions from
`sharp().metadata()`, rating from the sidecar metadata or 0. -/
def mkImageRecord (env : ScanEnv) (folderPath projectId fileName : String)
    (st : FileMeta) : ImageRecord :=
  let fullPath := pathJoin folderPath fileName
  { id := fullPath, project_id := projectId, file_path := fullPath,
    file_name := fileName, file_size := st.size, width := st.width,
    height := st.height, created_at := st.birthtime, modified_at := st.mtime,
    rating := (env.sidecarRating fileName).getD 0 }

/-- `DatabaseManager.getImagesByProject`: rows of the project ordered by
`modified_at` descending. -/
def getImagesByProject (db : List ImageRecord) (projectId : String) :
    List ImageRecord :=
  (db.filter (fun r => r.project_id == projectId)).mergeSort
    (fun a b => decide (b.modified_at ≤ a.modified_at))

/-- The fixed-size batching of the diff loop
(`for (let i = 0; i < newFiles.length; i += batchSize)`, `batchSize = 10`). -/
def chunks10 {α : Type} : List α → List (List α)
  | [] => []
  | x :: xs => ((x :: xs).take 10) :: chunks10 ((x :: xs).drop 10)
termination_by l => l.length
decreasing_by simp [List.length_drop]; omega

/-- Processing one new file inside a diff batch, `processImageWithSidecar`'s
try/catch included: when stat/decode succeeds, upsert the record and push
one `file-added` notification; when it throws (the catch branch), the
degraded display record is still pushed as `file-added`, but nothing is
upserted. -/
def diffStep (env : ScanEnv) (folderPath projectId : String)
    (acc : List ImageRecord × List String) (fileName : String) :
    List ImageRecord × List String :=
  match env.stat (pathJoin folderPath fileName) with
  | some st =>
    (upsertImage acc.1 (mkImageRecord env folderPath projectId fileName st),
      acc.2 ++ [fileName])
  | none => (acc.1, acc.2 ++ [fileName])

/-- The background diff of the `start-watching` handler: read the cached
rows, list the folder, filter to image files, process the files missing
from the cache in batches of 10 (each emitting a `file-added`
notification), then delete rows whose file vanished (each emitting a
`file-removed` notification).  Returns the final database, the names
notified as added, and the names notified as removed. -/
def diffRun (env : ScanEnv) (folderPath projectId : String)
    (db0 : List ImageRecord) :
    List ImageRecord × List String × List String :=
  let cachedImages := getImagesByProject db0 projectId
  let cachedNames := cachedImages.map (fun r => r.file_name)
  let imageFiles := env.files.filter isImageFile
  let newFiles := imageFiles.filter (fun f => !(cachedNames.contains f))
  let processed := (chunks10 newFiles).foldl
    (fun acc batch => batch.foldl (diffStep env folderPath projectId) acc) (db0, [])
  let deletedNames := cachedNames.filter (fun n => !(imageFiles.contains n))
  let db2 := deletedNames.foldl
    (fun d n => d.filter (fun r => !(r.file_name == n && r.project_id == projectId)))
    processed.1
  (db2, processed.2, deletedNames)

lemma chunks10_flatten {α : Type} (l : List α) : (chunks10 l).flatten = l := by
  induction l using chunks10.induct with
  | case1 => simp [chunks10]
  | case2 x xs ih =>
    rw [chunks10, List.flatten_cons, ih, List.take_append_drop]

lemma foldl_chunks10 {α β : Type} (g : β → α → β) (init : β) (l : List α) :
    (chunks10 l).foldl (fun acc batch => batch.foldl g acc) init = l.foldl g init := by
  conv_rhs => rw [← chunks10_flatten l]
  rw [List.foldl_flatten]

lemma string_data_inj {a b : String} (h : a.data = b.data) : a = b := by
  cases a with
  | mk d₁ =>
    cases b with
    | mk d₂ => exact congrArg String.mk h

lemma pathJoin_right_inj (a : String) {b c : String}
    (h : pathJoin a b = pathJoin a c) : b = c := by
  unfold pathJoin at h
  have hd : ((a ++ "/") ++ b).data = ((a ++ "/") ++ c).data := congrArg String.data h
  rw [String.data_append, String.data_append] at hd
  exact string_data_inj (List.append_cancel_left hd)

lemma length_filterMap_isSome {α β : Type} (g : α → Option β) (l : List α) :
    (l.filterMap g).length = (l.filter (fun a => (g a).isSome)).length := by
  induction l with
  | nil => rfl
  | cons a l ih =>
    cases hga : g a with
    | none => simp [List.filterMap_cons_none hga, List.filter_cons, hga, ih]
    | some b => simp [List.filterMap_cons_some hga, List.filter_cons, hga, ih]

/-- Flat form of batch processing: on files whose paths collide with nothing
in the database, processing appends one notification per file in order, and
one fresh row per file whose stat/decode succeeded. -/
lemma diff_process_flat (env : ScanEnv) (folderPath projectId : String) :
    ∀ (l : List String) (db : List ImageRecord) (out : List String),
    l.Nodup →
    (∀ r ∈ db, ∀ f ∈ l, r.id ≠ pathJoin folderPath f) →
    l.foldl (diffStep env folderPath projectId) (db, out)
      = (db ++ l.filterMap (fun f => (env.stat (pathJoin folderPath f)).map
            (mkImageRecord env folderPath projectId f)),
         out ++ l) := by
  intro l
  induction l with
  | nil => intro db out _ _; simp
  | cons f fs ih =>
    intro db out hnd hid
    rw [List.foldl_cons]
    cases hst : env.stat (pathJoin folderPath f) with
    | none =>
      have hstep : diffStep env folderPath projectId (db, out) f = (db, out ++ [f]) := by
        simp [diffStep, hst]
      rw [hstep, ih db (out ++ [f]) (List.nodup_cons.mp hnd).2
          (fun r hr f' hf' => hid r hr f' (List.mem_cons_of_mem f hf'))]
      rw [List.filterMap_cons_none (by rw [hst]; rfl)]
      simp
    | some st =>
      have hnotin : db.any
          (fun s => s.id == (mkImageRecord env folderPath projectId f st).id)
            = false := by
        rw [List.any_eq_false]
        intro x hx hbeq
        exact hid x hx f (List.mem_cons_self f fs) (by simpa using hbeq)
      have hstep : diffStep env folderPath projectId (db, out) f
          = (db ++ [mkImageRecord env folderPath projectId f st], out ++ [f]) := by
        simp [diffStep, hst, upsertImage, hnotin]
      rw [hstep]
      have hid' : ∀ r ∈ db ++ [mkImageRecord env folderPath projectId f st],
          ∀ f' ∈ fs, r.id ≠ pathJoin folderPath f' := by
        intro r hr f' hf'
        rcases List.mem_append.mp hr with hr | hr
        · exact hid r hr f' (List.mem_cons_of_mem f hf')
        · have hrf : r = mkImageRecord env folderPath projectId f st :=
            List.mem_singleton.mp hr
          subst hrf
          show pathJoin folderPath f ≠ pathJoin folderPath f'
          intro hEq
          have hff : f = f' := pathJoin_right_inj folderPath hEq
          exact (List.nodup_cons.mp hnd).1 (hff ▸ hf')
      rw [ih (db ++ [mkImageRecord env folderPath projectId f st]) (out ++ [f])
          (List.nodup_cons.mp hnd).2 hid']
      rw [List.filterMap_cons_some (by rw [hst]; rfl)]
      simp

/-- On an empty project cache, the diff run yields: the original rows plus
one fresh row per image file whose stat/decode succeeded, the image files
in order as added-notifications, and no removals. -/
lemma diffRun_empty_cache_spec (env : ScanEnv) (folderPath projectId : String)
    (db0 : List ImageRecord)
    (hnodup : env.files.Nodup)
    (hempty : ∀ r ∈ db0, r.project_id ≠ projectId)
    (hfresh : ∀ r ∈ db0, ∀ f ∈ env.files, r.id ≠ pathJoin folderPath f) :
    diffRun env folderPath projectId db0
      = (db0 ++ (env.files.filter isImageFile).filterMap
            (fun f => (env.stat (pathJoin folderPath f)).map
              (mkImageRecord env folderPath projectId f)),
          env.files.filter isImageFile, ([] : List String)) := by
  have hfil : db0.filter (fun r => r.project_id == projectId) = [] := by
    rw [List.filter_eq_nil_iff]
    intro r hr hbeq
    exact hempty r hr (by simpa using hbeq)
  have hcached : getImagesByProject db0 projectId = [] := by
    unfold getImagesByProject
    rw [hfil, List.mergeSort_nil]
  simp only [diffRun, hcached, List.map_nil, List.contains_nil, Bool.not_false,
    List.filter_nil, List.foldl_nil]
  rw [List.filter_true, foldl_chunks10,
    diff_process_flat env folderPath projectId (env.files.filter isImageFile) db0 []
      (hnodup.filter _)
      (fun r hr f hf => hfresh r hr f (List.mem_of_mem_filter hf))]
  simp

/-- Amended C3: after the diff completes on a folder with an empty project
cache, the added-file notifications are exactly the image files in order —
exactly N of them for N extension-matched files, no duplicates, none
missing — and no removal is emitted; but the Metadata Cache gains exactly
one row per image file whose per-file processing succeeded (its
stat/decode did not throw), which is exactly N rows only when every image
file processes successfully.  A failing file still produces a `file-added`
notification (the degraded record of the catch branch) but no row. -/
theorem diffRun_empty_cache_notifications_and_rows
    (env : ScanEnv) (folderPath projectId : String) (db0 : List ImageRecord)
    (hnodup : env.files.Nodup)
    (hempty : ∀ r ∈ db0, r.project_id ≠ projectId)
    (hfresh : ∀ r ∈ db0, ∀ f ∈ env.files, r.id ≠ pathJoin folderPath f) :
    (diffRun env folderPath projectId db0).2.1 = env.files.filter isImageFile ∧
    (diffRun env folderPath projectId db0).2.1.Nodup ∧
    ((diffRun env folderPath projectId db0).1.filter
        (fun r => r.project_id == projectId)).length
      = ((env.files.filter isImageFile).filter
          (fun f => (env.stat (pathJoin folderPath f)).isSome)).length ∧
    ((∀ f ∈ env.files.filter isImageFile,
        (env.stat (pathJoin folderPath f)).isSome = true) →
      ((diffRun env folderPath projectId db0).1.filter
          (fun r => r.project_id == projectId)).length
        = (env.files.filter isImageFile).length) ∧
    (diffRun env folderPath projectId db0).2.2 = [] := by
  have hspec := diffRun_empty_cache_spec env folderPath projectId db0 hnodup hempty hfresh
  have hfil : db0.filter (fun r => r.project_id == projectId) = [] := by
    rw [List.filter_eq_nil_iff]
    intro r hr hbeq
    exact hempty r hr (by simpa using hbeq)
  have hrows : ((diffRun env folderPath projectId db0).1.filter
      (fun r => r.project_id == projectId)).length
      = ((env.files.filter isImageFile).filter
          (fun f => (env.stat (pathJoin folderPath f)).isSome)).length := by
    rw [hspec]
    show ((db0 ++ (env.files.filter isImageFile).filterMap
        (fun f => (env.stat (pathJoin folderPath f)).map
          (mkImageRecord env folderPath projectId f))).filter
        (fun r => r.project_id == projectId)).length = _
    rw [List.filter_append, hfil, List.nil_append]
    have hkeep : ((env.files.filter isImageFile).filterMap
        (fun f => (env.stat (pathJoin folderPath f)).map
          (mkImageRecord env folderPath projectId f))).filter
          (fun r => r.project_id == projectId)
        = (env.files.filter isImageFile).filterMap
            (fun f => (env.stat (pathJoin folderPath f)).map
              (mkImageRecord env folderPath projectId f)) := by
      rw [List.filter_eq_self]
      intro a ha
      rcases List.mem_filterMap.mp ha with ⟨f, hf, hgf⟩
      cases hstat : env.stat (pathJoin folderPath f) with
      | none =>
        rw [hstat] at hgf
        exact absurd hgf (by simp)
      | some st =>
        rw [hstat] at hgf
        have hrec : mkImageRecord env folderPath projectId f st = a := by
          simpa using hgf
        rw [← hrec]
        simp [mkImageRecord]
    rw [hkeep, length_filterMap_isSome]
    exact congrArg List.length
      (List.filter_congr (fun f _ => by rw [Option.isSome_map']))
  refine ⟨by rw [hspec], by rw [hspec]; exact hnodup.filter _, hrows, ?_, by rw [hspec]⟩
  intro hall
  rw [hrows, List.filter_eq_self.mpr hall]

/-- The folder for the C3 counterexample: two image files, of which `b.jpg`
is corrupt — its `fs.stat`/`sharp` calls throw, so its stat is `none`. -/
def envC3bad : ScanEnv :=
  { files := ["a.jpg", "b.jpg"],
    stat := fun p => if p = "d/a.jpg" then some ⟨1, 2, 3, 4, 5⟩ else none,
    sidecarRating := fun _ => none }

/-- Counterexample to C3: on a folder with N = 2 image files and an empty
cache where `b.jpg` fails to process, the diff emits both `file-added`
notifications (the catch branch still notifies with the degraded record)
but stores only 1 row, so the cache does not hold exactly N rows. -/
theorem diffRun_corrupt_file_breaks_row_count :
    (envC3bad.files.filter isImageFile).length = 2 ∧
    (diffRun envC3bad "d" "p" []).2.1 = ["a.jpg", "b.jpg"] ∧
    ((diffRun envC3bad "d" "p" []).1.filter
        (fun r => r.project_id == "p")).length = 1 ∧
    ((diffRun envC3bad "d" "p" []).1.filter
        (fun r => r.project_id == "p")).length
      ≠ (envC3bad.files.filter isImageFile).length := by
  rw [diffRun_empty_cache_spec envC3bad "d" "p" [] (by decide) (by decide) (by decide)]
  decide

/-- The folder for the C3 witness: two image files and one non-image file,
with every stat succeeding. -/
def envC3 : ScanEnv :=
  { files := ["a.jpg", "b.png", "notes.txt"],
    stat := fun _ => some ⟨1, 2, 3, 4, 5⟩,
    sidecarRating := fun _ => none }

/-- Witness for the amended C3: on a folder with 2 image files (of 3
entries), all processing successfully, the diff emits exactly the 2
added-file notifications and stores one row per successfully processed
file. -/
theorem diffRun_empty_cache_notifications_and_rows_witness :
    (diffRun envC3 "d" "p" []).2.1 = envC3.files.filter isImageFile ∧
    ((diffRun envC3 "d" "p" []).1.filter
        (fun r => r.project_id == "p")).length
      = ((envC3.files.filter isImageFile).filter
          (fun f => (envC3.stat (pathJoin "d" f)).isSome)).length ∧
    (diffRun envC3 "d" "p" []).2.2 = [] :=
  have h := diffRun_empty_cache_notifications_and_rows envC3 "d" "p" []
    (by decide) (by decide) (by decide)
  ⟨h.1, h.2.2.1, h.2.2.2.2⟩
